import Mathlib

/-!
Shallow embedding of the rhythm-game timing/judgement engine of
`src/main.py` (the function `game`, the class `NoteLinkedList`, and the
session clock around them).

Modelling conventions:
* Rendering (background, particles, `FeedbackText`, lane flashes, HUD
  drawing) only writes to the screen and is omitted.
* `random.randint(0, 3)` (line 401) enters as an explicit `lane`
  parameter per tick; `pygame.mixer.music.get_busy()` (line 534) enters
  as an explicit `busy : Bool` parameter per tick.
* Python object identity of `NoteNode` allocations is modelled by a
  `nid : Nat` field, drawn from a fresh counter at each spawn; the
  `next` pointer of `NoteNode` is the list structure itself.
* Machine floats hold seconds and pixel positions; seconds are
  modelled by rationals, and pixel positions by integers (every `y`
  the program produces is an integer: spawned at `-50`, advanced by
  `fall_speed = 3`).
-/

/-- Screen height (line 9): the second component of `WIDTH, HEIGHT = 600, 800`. -/
def HEIGHT : ℤ := 800

/-- Fall speed in pixels per frame (line 329): `fall_speed = 3`. -/
def fall_speed : ℤ := 3

/-- Judgement line position (line 331): `judgement_line = HEIGHT - 150`. -/
def judgement_line : ℤ := HEIGHT - 150

/-- Hit window radius (line 332): `hit_window = 60`. -/
def hit_window : ℤ := 60

/-- Perfect window radius: the literal `20` in `if closest_dist < 20` (line 508). -/
def perfect_window : ℤ := 20

/-- Lane x coordinates (line 310): `lane_x = [75, 225, 375, 525]`. -/
def lane_x : List ℤ := [75, 225, 375, 525]

/-- `lane_x[lane]` (line 402); the caller only ever produces `lane` in `0..3`. -/
def laneXAt (lane : Nat) : ℤ := lane_x.getD lane 0

/-- One `NoteNode` (lines 21-30).  `nid` models Python object identity;
`is_holding`, `hold_start_y` and `next` are omitted (`is_holding` and
`hold_start_y` are never read by the game logic, `next` is the list
structure itself). -/
structure NoteNode where
  nid : Nat
  x : ℤ
  y : ℤ
  lane : Nat
  duration : ℚ
  note_type : String
  deriving Repr, DecidableEq

namespace NoteLinkedList

/-- `NoteLinkedList.add` (lines 37-45): walk to the tail and append a
fresh node there, so list order is spawn order. -/
def add (l : List NoteNode) (n : NoteNode) : List NoteNode :=
  match l with
  | [] => [n]
  | c :: rest => c :: add rest n

/-- `NoteLinkedList.remove` (lines 47-55): unlink the first node that is
(identity-)equal to the argument; a silent no-op when the node is not in
the list. -/
def remove (l : List NoteNode) (i : Nat) : List NoteNode :=
  match l with
  | [] => []
  | c :: rest => if c.nid = i then rest else c :: remove rest i

end NoteLinkedList

/-- Discrete input events the `game` loop reacts to (lines 379-389 while
paused, lines 481-524 while running): the ESC key, the Q key, and the
four lane keys A/S/J/K mapped to lanes 0-3 (line 315).  The window-close
event calls the process-level `exit()` and is not part of the session
semantics. -/
inductive Event where
  | escape
  | qkey
  | press (lane : Nat)
  deriving Repr, DecidableEq

/-- The mutable session state of `game` (lines 296-335), restricted to
the fields the timing/judgement engine reads or writes.  Omitted:
`particles`, `feedback_texts`, `lane_flash` (render-only), `background`,
`dt` (unused), `start_time` (modelled separately in `ClockState`).
`running = false` means the `while running` loop has exited; `aborted`
records a Q-quit from pause (`return None`, line 388); `musicStopped`
records a `pygame.mixer.music.stop()` call. -/
structure GameState where
  beat_queue : List ℚ
  notes : List NoteNode
  nextNid : Nat
  score : ℕ
  combo : ℕ
  max_combo : ℕ
  total_notes : ℕ
  perfect_hits : ℕ
  good_hits : ℕ
  missed_notes : ℕ
  health : ℤ
  paused : Bool
  running : Bool
  aborted : Bool
  musicStopped : Bool
  deriving Repr, DecidableEq

/-- The state right after the countdown (lines 296-335): all counters
zero, health 100, not paused, the detected beat times queued. -/
def initialState (B : List ℚ) : GameState :=
  { beat_queue := B
    notes := []
    nextNid := 0
    score := 0
    combo := 0
    max_combo := 0
    total_notes := 0
    perfect_hits := 0
    good_hits := 0
    missed_notes := 0
    health := 100
    paused := false
    running := true
    aborted := false
    musicStopped := false }

/-- The duration literal `0.3` of every spawned note (line 402), i.e.
`3/10` in lowest terms, written as a literal numerator/denominator pair
so concrete states reduce inside the kernel. -/
def noteDuration : ℚ := ⟨3, 10, by decide, by decide⟩

/-- The literal pair above really is the rational `3/10`. -/
theorem noteDuration_eq : noteDuration = 3 / 10 := by
  rw [show noteDuration = Rat.mk' 3 10 from rfl, Rat.mk'_eq_divInt, Rat.divInt_eq_div]
  norm_num

/-- The note allocated at a spawn (line 402):
`NoteNode(lane_x[lane], -50, lane, 0.3, "normal")`, with the fresh
identity counter. -/
def newNote (s : GameState) (lane : Nat) : NoteNode :=
  { nid := s.nextNid
    x := laneXAt lane
    y := -50
    lane := lane
    duration := noteDuration
    note_type := "normal" }

/-- The beat-to-spawn step, lines 399-404: an `if` (not a `while`), so
at most ONE beat is consumed per tick, exactly when the front of
`beat_queue` is at or before the current simulation time `t`. -/
def spawnStep (t : ℚ) (lane : Nat) (s : GameState) : GameState :=
  match s.beat_queue with
  | [] => s
  | b :: rest =>
    if b ≤ t then
      { s with
          notes := NoteLinkedList.add s.notes (newNote s lane)
          nextNid := s.nextNid + 1
          total_notes := s.total_notes + 1
          beat_queue := rest }
    else s

/-- The fall-through condition (line 416): `note.y > judgement_line + hit_window`. -/
def missedP (n : NoteNode) : Bool := decide (judgement_line + hit_window < n.y)

/-- One note's advance (line 409): `note.y += fall_speed`. -/
def mvNote (n : NoteNode) : NoteNode := { n with y := n.y + fall_speed }

/-- The body of the per-note miss branch, lines 415-425: remove the
note, reset combo, apply the clamped health penalty, count the miss
(feedback text and particles are render-only). -/
def sweepNote (s : GameState) (n : NoteNode) : GameState :=
  if missedP n then
    { s with
        notes := NoteLinkedList.remove s.notes n.nid
        combo := 0
        health := max 0 (s.health - 10)
        missed_notes := s.missed_notes + 1 }
  else s

/-- The `for note in list(notes)` loop, lines 407-425: each snapshot
note advances by `fall_speed` (the loop runs only in the unpaused
branch, so the `if not paused` guard at line 408 is always taken) and is
then checked for fall-through at its advanced position.  Movement of one
node never affects another and removal is by identity, so the
interleaved Python loop equals: move every note, then fold the miss
branch over the moved snapshot. -/
def updateNotes (s : GameState) : GameState :=
  let moved := s.notes.map mvNote
  List.foldl sweepNote { s with notes := moved } moved

/-- The linear search for the closest note in the pressed lane, lines
495-504: running best starts at `(None, 999)` and is replaced only on a
strictly smaller distance, so the earliest-spawned note wins ties. -/
def searchStep (lane : Nat) (acc : Option NoteNode × ℤ) (n : NoteNode) :
    Option NoteNode × ℤ :=
  if n.lane = lane then
    if |n.y - judgement_line| < acc.2 then (some n, |n.y - judgement_line|) else acc
  else acc

/-- `hit_note, closest_dist` after the search loop (lines 496-504). -/
def findClosest (l : List NoteNode) (lane : Nat) : Option NoteNode × ℤ :=
  l.foldl (searchStep lane) (none, 999)

/-- The judgement tiers the press handler can render: PERFECT!
(line 511), GOOD (line 515), or nothing at all (no candidate within the
hit window) — the latter is the spec's mis-press Miss. -/
inductive Outcome where
  | perfect
  | good
  | miss
  deriving Repr, DecidableEq

/-- The press handler, lines 506-524: on a candidate strictly inside the
hit window, score and the tier counter grow (300/perfect inside the
perfect window, else 100/good), combo grows by one, `max_combo` takes
`max(combo, max_combo)` after the increment, and the judged note is
removed.  Otherwise nothing at all happens: there is no `else` branch at
line 506. -/
def judge (lane : Nat) (s : GameState) : GameState :=
  match findClosest s.notes lane with
  | (some hit_note, closest_dist) =>
    if closest_dist < hit_window then
      if closest_dist < perfect_window then
        { s with
            score := s.score + 300
            perfect_hits := s.perfect_hits + 1
            combo := s.combo + 1
            max_combo := max (s.combo + 1) s.max_combo
            notes := NoteLinkedList.remove s.notes hit_note.nid }
      else
        { s with
            score := s.score + 100
            good_hits := s.good_hits + 1
            combo := s.combo + 1
            max_combo := max (s.combo + 1) s.max_combo
            notes := NoteLinkedList.remove s.notes hit_note.nid }
    else s
  | (none, _) => s

/-- The tier the press handler classifies (same conditions as `judge`). -/
def judgeOutcome (lane : Nat) (s : GameState) : Outcome :=
  match findClosest s.notes lane with
  | (some _, closest_dist) =>
    if closest_dist < hit_window then
      if closest_dist < perfect_window then Outcome.perfect else Outcome.good
    else Outcome.miss
  | (none, _) => Outcome.miss

/-- One event of the running-branch event loop (lines 481-524): ESC
toggles `paused` (and pauses/unpauses the audio, which lives outside the
state); a lane key judges only when `not paused` holds at that point of
the loop (line 491); Q is not handled while running. -/
def handleEvent (s : GameState) (e : Event) : GameState :=
  match e with
  | Event.escape => { s with paused := !s.paused }
  | Event.qkey => s
  | Event.press lane => if s.paused then s else judge lane s

/-- The paused-branch event loop (lines 379-389): ESC resumes (audio
unpauses, `start_time` untouched), Q stops the audio and returns `None`
immediately (so later events of that tick are not processed), everything
else is ignored; then the branch does `continue`, skipping the whole
tick body. -/
def pauseEvents (s : GameState) : List Event → GameState
  | [] => s
  | e :: rest =>
    match e with
    | Event.escape => pauseEvents { s with paused := false } rest
    | Event.qkey => { s with running := false, aborted := true, musicStopped := true }
    | Event.press _ => pauseEvents s rest

/-- The two terminal checks at the bottom of the loop body (lines
528-535): `health <= 0` forces `pygame.mixer.music.stop()` and ends the
loop; independently, `not pygame.mixer.music.get_busy()` ends the loop
— with no look at `beat_queue` or `notes`. -/
def endChecks (busy : Bool) (s : GameState) : GameState :=
  let s1 := if s.health ≤ 0 then { s with musicStopped := true, running := false } else s
  if busy then s1 else { s1 with running := false }

/-- One iteration of `while running` (lines 365-535), in source order:
paused branch (events only, then `continue`); otherwise spawn step, note
advance + miss sweep, event loop, terminal checks.  When `running` is
already false the loop body does not execute at all. -/
def tick (t : ℚ) (lane : Nat) (events : List Event) (busy : Bool) (s : GameState) :
    GameState :=
  if !s.running then s
  else if s.paused then pauseEvents s events
  else
    endChecks busy (List.foldl handleEvent (updateNotes (spawnStep t lane s)) events)

/-- The externally supplied data of one tick: the simulation time `t`
(line 391), the random lane draw (line 401), the polled events
(line 481), and the audio-busy query (line 534). -/
structure TickInput where
  t : ℚ
  lane : Nat
  events : List Event
  busy : Bool

/-- A run of consecutive loop iterations. -/
def runTicks (ins : List TickInput) (s : GameState) : GameState :=
  ins.foldl (fun st i => tick i.t i.lane i.events i.busy st) s

/-- The session states `game` can be in, starting from the
post-countdown state for some detected beat sequence. -/
inductive Reachable : GameState → Prop where
  | init (B : List ℚ) : Reachable (initialState B)
  | step {s : GameState} (t : ℚ) (lane : Nat) (events : List Event) (busy : Bool) :
      Reachable s → Reachable (tick t lane events busy s)

/-- The session clock: `start_time` is set once, when the countdown ends
and the audio starts (line 353), and the `paused` flag (line 328). -/
structure ClockState where
  start_time : ℚ
  paused : Bool
  deriving Repr, DecidableEq

/-- Line 391: `t = pygame.time.get_ticks() / 1000.0 - start_time`,
computed from the wall clock on every unpaused iteration. -/
def simTime (nowSeconds : ℚ) (c : ClockState) : ℚ := nowSeconds - c.start_time

/-- ESC while running (lines 485-488): sets `paused` and pauses the
audio; `start_time` is not touched. -/
def pauseGame (c : ClockState) : ClockState := { c with paused := true }

/-- ESC while paused (lines 383-385): clears `paused` and unpauses the
audio; `start_time` is not adjusted by the elapsed pause duration. -/
def resumeFromPause (c : ClockState) : ClockState := { c with paused := false }

/-- The clamped health penalty `health = max(0, health - 10)`
(line 419), applied once per fall-through miss event. -/
def healthAfterMisses (h : ℤ) (k : ℕ) : ℤ := (fun x => max 0 (x - 10))^[k] h

/-- The end-of-session accuracy (lines 537-539):
`(total_hits / total_notes * 100) if total_notes > 0 else 0`. -/
def accuracy (s : GameState) : ℚ :=
  if 0 < s.total_notes then
    ((s.perfect_hits : ℚ) + (s.good_hits : ℚ)) / (s.total_notes : ℚ) * 100
  else 0

/-- The state invariant the session maintains: every judged or swept
note was spawned and counted once (all spawned notes are judged, swept,
or still on track), note identities are distinct and below the fresh
counter, and health stays in `[0, 100]`. -/
def SessionInv (s : GameState) : Prop :=
  s.perfect_hits + s.good_hits + s.missed_notes + s.notes.length = s.total_notes ∧
  (s.notes.map NoteNode.nid).Nodup ∧
  (∀ i ∈ s.notes.map NoteNode.nid, i < s.nextNid) ∧
  0 ≤ s.health ∧ s.health ≤ 100

/-- The pure scheduler component of a run: only the spawn step of each
tick (lines 399-404), which is the part of the loop that reads
`beat_queue`. -/
def schedulerRun (ts : List ℚ) (lane : Nat) (s : GameState) : GameState :=
  ts.foldl (fun st t => spawnStep t lane st) s


/-! ### Lemmas about the note list operations -/

/-- Appending at the tail of the walked list is a plain list append. -/
theorem NoteLinkedList.add_eq_append (l : List NoteNode) (n : NoteNode) :
    NoteLinkedList.add l n = l ++ [n] := by
  induction l with
  | nil => rfl
  | cons c rest ih => simp [NoteLinkedList.add, ih]

/-- Removing an identity that is not in the list is a no-op. -/
theorem NoteLinkedList.remove_of_not_mem (l : List NoteNode) (i : Nat)
    (h : ∀ n ∈ l, n.nid ≠ i) :
    NoteLinkedList.remove l i = l := by
  induction l with
  | nil => rfl
  | cons c rest ih =>
    simp [NoteLinkedList.remove, h c (List.mem_cons_self c rest),
      ih fun n hn => h n (List.mem_cons_of_mem c hn)]

/-- Removal only drops elements. -/
theorem NoteLinkedList.remove_sublist (l : List NoteNode) (i : Nat) :
    (NoteLinkedList.remove l i).Sublist l := by
  induction l with
  | nil => simp [NoteLinkedList.remove]
  | cons c rest ih =>
    rw [NoteLinkedList.remove]
    by_cases h : c.nid = i
    · simp only [h, if_pos rfl]
      exact List.sublist_cons_self c rest
    · simp only [if_neg h]
      exact List.Sublist.cons₂ c ih

/-- Removal unlinks exactly the first node carrying the identity. -/
theorem NoteLinkedList.remove_append (l₁ l₂ : List NoteNode) (n : NoteNode)
    (h : n.nid ∉ l₁.map NoteNode.nid) :
    NoteLinkedList.remove (l₁ ++ n :: l₂) n.nid = l₁ ++ l₂ := by
  induction l₁ with
  | nil => simp [NoteLinkedList.remove]
  | cons c rest ih =>
    simp only [List.map_cons, List.mem_cons] at h
    push_neg at h
    have hc : c.nid ≠ n.nid := fun hc => h.1 hc.symm
    simp [NoteLinkedList.remove, hc, ih h.2]

/-- Removing a present identity shortens the list by exactly one. -/
theorem NoteLinkedList.length_remove (l : List NoteNode) (i : Nat)
    (h : ∃ n ∈ l, n.nid = i) :
    (NoteLinkedList.remove l i).length + 1 = l.length := by
  induction l with
  | nil => simp at h
  | cons c rest ih =>
    by_cases hc : c.nid = i
    · simp [NoteLinkedList.remove, hc]
    · obtain ⟨n, hn, hni⟩ := h
      rcases List.mem_cons.mp hn with rfl | hn
      · exact absurd hni hc
      · simp only [NoteLinkedList.remove, if_neg hc, List.length_cons]
        rw [← ih ⟨n, hn, hni⟩]

/-! ### Lemmas about the clamped health decrement -/

/-- Zero miss events leave health alone. -/
theorem healthAfterMisses_zero (h : ℤ) : healthAfterMisses h 0 = h := rfl

/-- One more miss event applies one more clamped decrement first. -/
theorem healthAfterMisses_succ (h : ℤ) (k : ℕ) :
    healthAfterMisses h (k + 1) = healthAfterMisses (max 0 (h - 10)) k :=
  Function.iterate_succ_apply (fun x => max 0 (x - 10)) k h

/-- Starting from a non-negative health, any number of clamped
decrements stays non-negative and never increases health. -/
theorem healthAfterMisses_bounds (k : ℕ) (h : ℤ) (h0 : 0 ≤ h) :
    0 ≤ healthAfterMisses h k ∧ healthAfterMisses h k ≤ h := by
  induction k generalizing h with
  | zero => exact ⟨h0, le_refl h⟩
  | succ k ih =>
    rw [healthAfterMisses_succ]
    obtain ⟨a, b⟩ := ih (max 0 (h - 10)) (le_max_left 0 _)
    exact ⟨a, b.trans (max_le h0 (sub_le_self h (by norm_num)))⟩

/-! ### Lemmas about the miss sweep -/

/-- The two shapes of one sweep-loop body. -/
theorem sweepNote_cases (s : GameState) (n : NoteNode) :
    (missedP n = false ∧ sweepNote s n = s) ∨
    (missedP n = true ∧ sweepNote s n =
      { s with
          notes := NoteLinkedList.remove s.notes n.nid
          combo := 0
          health := max 0 (s.health - 10)
          missed_notes := s.missed_notes + 1 }) := by
  cases h : missedP n
  · exact Or.inl ⟨rfl, by simp [sweepNote, h]⟩
  · exact Or.inr ⟨rfl, by simp [sweepNote, h]⟩

/-- Fields the sweep loop never writes. -/
theorem foldl_sweep_const (L : List NoteNode) (s : GameState) :
    (List.foldl sweepNote s L).score = s.score ∧
    (List.foldl sweepNote s L).max_combo = s.max_combo ∧
    (List.foldl sweepNote s L).total_notes = s.total_notes ∧
    (List.foldl sweepNote s L).perfect_hits = s.perfect_hits ∧
    (List.foldl sweepNote s L).good_hits = s.good_hits ∧
    (List.foldl sweepNote s L).nextNid = s.nextNid ∧
    (List.foldl sweepNote s L).beat_queue = s.beat_queue ∧
    (List.foldl sweepNote s L).paused = s.paused ∧
    (List.foldl sweepNote s L).running = s.running ∧
    (List.foldl sweepNote s L).aborted = s.aborted ∧
    (List.foldl sweepNote s L).musicStopped = s.musicStopped := by
  induction L generalizing s with
  | nil => exact ⟨rfl, rfl, rfl, rfl, rfl, rfl, rfl, rfl, rfl, rfl, rfl⟩
  | cons n L ih =>
    rw [List.foldl_cons]
    rcases sweepNote_cases s n with ⟨_, he⟩ | ⟨_, he⟩ <;> rw [he] <;> exact ih _

/-- Kept and swept notes of one pass partition the pass's input. -/
theorem length_filter_not_add_countP (L : List NoteNode) :
    (L.filter (fun n => !missedP n)).length + L.countP missedP = L.length := by
  induction L with
  | nil => rfl
  | cons n L ih =>
    cases h : missedP n <;>
      simp [List.filter_cons, List.countP_cons, h, ← ih] <;> omega


/-- What one full sweep pass over the snapshot `L` does, given that the
live list currently holds the already-kept prefix `kept` followed by the
unprocessed `L`, all with distinct identities: kept notes stay, every
note past the tolerance line is unlinked and counted, combo is cleared
exactly when some note fell through, and each fall-through applies one
clamped health decrement. -/
theorem foldl_sweep_spec (L : List NoteNode) : ∀ (kept : List NoteNode) (s : GameState),
    s.notes = kept ++ L →
    ((kept ++ L).map NoteNode.nid).Nodup →
    (List.foldl sweepNote s L).notes = kept ++ L.filter (fun n => !missedP n) ∧
    (List.foldl sweepNote s L).missed_notes = s.missed_notes + L.countP missedP ∧
    (List.foldl sweepNote s L).health = healthAfterMisses s.health (L.countP missedP) ∧
    (List.foldl sweepNote s L).combo = (if L.any missedP then 0 else s.combo) := by
  induction L with
  | nil =>
    intro kept s hn _
    refine ⟨by simpa using hn, by simp, by simp [healthAfterMisses_zero], by simp⟩
  | cons n L ih =>
    intro kept s hn hd
    rw [List.foldl_cons]
    rcases sweepNote_cases s n with ⟨hm, he⟩ | ⟨hm, he⟩
    · -- the head of the snapshot is not past the line: the body is a no-op
      rw [he]
      have hn2 : s.notes = (kept ++ [n]) ++ L := by
        rw [hn, List.append_assoc, List.singleton_append]
      have hd2 : (((kept ++ [n]) ++ L).map NoteNode.nid).Nodup := by
        rw [List.append_assoc, List.singleton_append]; exact hd
      obtain ⟨h1, h2, h3, h4⟩ := ih (kept ++ [n]) s hn2 hd2
      refine ⟨?_, ?_, ?_, ?_⟩
      · rw [h1, List.filter_cons_of_pos (by simp [hm]), List.append_assoc,
          List.singleton_append]
      · rw [h2, List.countP_cons, hm]
        simp
      · rw [h3, List.countP_cons, hm]
        simp
      · rw [h4, List.any_cons, hm, Bool.false_or]
    · -- the head of the snapshot fell through: unlink it and count a miss
      have hdm : ((kept.map NoteNode.nid) ++ (n.nid :: L.map NoteNode.nid)).Nodup := by
        simpa using hd
      have hnotin : n.nid ∉ kept.map NoteNode.nid := fun hmem =>
        (List.nodup_append.mp hdm).2.2 hmem (List.mem_cons_self _ _)
      have e1 : (sweepNote s n).notes = NoteLinkedList.remove s.notes n.nid := by rw [he]
      have e2 : (sweepNote s n).combo = 0 := by rw [he]
      have e3 : (sweepNote s n).health = max 0 (s.health - 10) := by rw [he]
      have e4 : (sweepNote s n).missed_notes = s.missed_notes + 1 := by rw [he]
      have hd2 : ((kept ++ L).map NoteNode.nid).Nodup :=
        List.Nodup.sublist
          (List.Sublist.map NoteNode.nid
            (List.Sublist.append_left (List.sublist_cons_self n L) kept)) hd
      obtain ⟨h1, h2, h3, h4⟩ := ih kept (sweepNote s n)
        (by rw [e1, hn]; exact NoteLinkedList.remove_append kept L n hnotin) hd2
      refine ⟨?_, ?_, ?_, ?_⟩
      · rw [h1, List.filter_cons_of_neg (by simp [hm])]
      · rw [h2, e4, List.countP_cons, hm]
        simp
        omega
      · rw [h3, e3, List.countP_cons, hm]
        simp only [if_true]
        exact (healthAfterMisses_succ s.health (L.countP missedP)).symm
      · rw [h4, e2, List.any_cons, hm, Bool.true_or, if_pos rfl, ite_self]

/-- Advancing a note keeps its identity. -/
theorem mvNote_nid (n : NoteNode) : (mvNote n).nid = n.nid := rfl

/-- The moved snapshot carries the same identities as the live list. -/
theorem map_nid_map_mvNote (l : List NoteNode) :
    (l.map mvNote).map NoteNode.nid = l.map NoteNode.nid := by
  rw [List.map_map]; rfl

/-- What one advance-and-sweep pass does to a state with distinct note
identities. -/
theorem updateNotes_spec (s : GameState)
    (hd : (s.notes.map NoteNode.nid).Nodup) :
    (updateNotes s).notes = (s.notes.map mvNote).filter (fun n => !missedP n) ∧
    (updateNotes s).missed_notes =
      s.missed_notes + (s.notes.map mvNote).countP missedP ∧
    (updateNotes s).health =
      healthAfterMisses s.health ((s.notes.map mvNote).countP missedP) ∧
    (updateNotes s).combo =
      (if (s.notes.map mvNote).any missedP then 0 else s.combo) := by
  have hd2 : (([] ++ s.notes.map mvNote).map NoteNode.nid).Nodup := by
    rw [List.nil_append, map_nid_map_mvNote]; exact hd
  have h := foldl_sweep_spec (s.notes.map mvNote) []
    { s with notes := s.notes.map mvNote } (by rw [List.nil_append]) hd2
  simpa [updateNotes] using h

/-- Fields the advance-and-sweep pass never writes. -/
theorem updateNotes_const (s : GameState) :
    (updateNotes s).score = s.score ∧
    (updateNotes s).max_combo = s.max_combo ∧
    (updateNotes s).total_notes = s.total_notes ∧
    (updateNotes s).perfect_hits = s.perfect_hits ∧
    (updateNotes s).good_hits = s.good_hits ∧
    (updateNotes s).nextNid = s.nextNid ∧
    (updateNotes s).beat_queue = s.beat_queue ∧
    (updateNotes s).paused = s.paused ∧
    (updateNotes s).running = s.running ∧
    (updateNotes s).aborted = s.aborted ∧
    (updateNotes s).musicStopped = s.musicStopped := by
  have h := foldl_sweep_const (s.notes.map mvNote) { s with notes := s.notes.map mvNote }
  simpa [updateNotes] using h

/-- The two shapes of the spawn step: no due beat, or the front beat is
popped, one note is appended at the tail, and both counters advance. -/
theorem spawnStep_cases (t : ℚ) (lane : Nat) (s : GameState) :
    spawnStep t lane s = s ∨
    (∃ b rest, s.beat_queue = b :: rest ∧ b ≤ t ∧
      spawnStep t lane s =
        { s with
            notes := s.notes ++ [newNote s lane]
            nextNid := s.nextNid + 1
            total_notes := s.total_notes + 1
            beat_queue := rest }) := by
  unfold spawnStep
  split
  · exact Or.inl rfl
  · rename_i b rest hq
    by_cases hb : b ≤ t
    · exact Or.inr ⟨b, rest, hq, hb, by
        rw [if_pos hb, NoteLinkedList.add_eq_append]⟩
    · rw [if_neg hb]
      exact Or.inl rfl

/-- Characterization of the linear search fold: either no lane note in
the remaining list strictly beats the incoming best (and the accumulator
survives), or the result is the first lane note achieving the minimum
distance — every earlier lane note is strictly farther (a tie keeps the
earlier note, since replacement needs a strictly smaller distance), and
every later lane note is at least as far. -/
theorem searchFold_char (lane : Nat) (l : List NoteNode) :
    ∀ (b : Option NoteNode) (bd : ℤ),
      (List.foldl (searchStep lane) (b, bd) l = (b, bd) ∧
        ∀ m ∈ l, m.lane = lane → bd ≤ |m.y - judgement_line|) ∨
      (∃ n l₁ l₂, l = l₁ ++ n :: l₂ ∧ n.lane = lane ∧
        List.foldl (searchStep lane) (b, bd) l = (some n, |n.y - judgement_line|) ∧
        |n.y - judgement_line| < bd ∧
        (∀ m ∈ l₁, m.lane = lane → |n.y - judgement_line| < |m.y - judgement_line|) ∧
        (∀ m ∈ l₂, m.lane = lane → |n.y - judgement_line| ≤ |m.y - judgement_line|)) := by
  induction l with
  | nil =>
    intro b bd
    exact Or.inl ⟨rfl, by simp⟩
  | cons c l ih =>
    intro b bd
    rw [List.foldl_cons]
    by_cases hc : c.lane = lane ∧ |c.y - judgement_line| < bd
    · have hstep : searchStep lane (b, bd) c = (some c, |c.y - judgement_line|) := by
        simp [searchStep, hc.1, hc.2]
      rw [hstep]
      rcases ih (some c) (|c.y - judgement_line|) with ⟨hf, hall⟩ |
        ⟨n, l₁, l₂, hl, hnl, hf, hlt, h₁, h₂⟩
      · exact Or.inr ⟨c, [], l, by simp, hc.1, hf, hc.2, by simp,
          fun m hm hml => hall m hm hml⟩
      · refine Or.inr ⟨n, c :: l₁, l₂, by rw [hl]; rfl, hnl, hf,
          lt_trans hlt hc.2, ?_, h₂⟩
        intro m hm hml
        rcases List.mem_cons.mp hm with rfl | hm
        · exact hlt
        · exact h₁ m hm hml
    · push_neg at hc
      have hstep : searchStep lane (b, bd) c = (b, bd) := by
        unfold searchStep
        by_cases h1 : c.lane = lane
        · simp [h1, hc h1]
        · simp [h1]
      rw [hstep]
      rcases ih b bd with ⟨hf, hall⟩ | ⟨n, l₁, l₂, hl, hnl, hf, hlt, h₁, h₂⟩
      · refine Or.inl ⟨hf, ?_⟩
        intro m hm hml
        rcases List.mem_cons.mp hm with rfl | hm
        · exact hc hml
        · exact hall m hm hml
      · refine Or.inr ⟨n, c :: l₁, l₂, by rw [hl]; rfl, hnl, hf, hlt, ?_, h₂⟩
        intro m hm hml
        rcases List.mem_cons.mp hm with rfl | hm
        · exact lt_of_lt_of_le hlt (hc hml)
        · exact h₁ m hm hml

/-- Whenever the search yields a candidate, it is a note of the searched
list, in the searched lane, at its own distance, strictly inside the
`999` initialization bound. -/
theorem findClosest_some (l : List NoteNode) (lane : Nat) (n : NoteNode) (d : ℤ)
    (h : findClosest l lane = (some n, d)) :
    n ∈ l ∧ n.lane = lane ∧ d = |n.y - judgement_line| ∧ d < 999 := by
  rw [findClosest] at h
  rcases searchFold_char lane l none 999 with ⟨hf, _⟩ |
    ⟨n', l₁, l₂, hl, hnl, hf, hlt, _, _⟩
  · have := h.symm.trans hf
    simp at this
  · have heq := h.symm.trans hf
    rw [Prod.mk.injEq, Option.some.injEq] at heq
    obtain ⟨rfl, rfl⟩ := heq
    exact ⟨by rw [hl]; exact List.mem_append_right l₁ (List.mem_cons_self _ _),
      hnl, rfl, hlt⟩

/-- The two shapes of the press handler: a no-op (the mis-press case:
no candidate, or candidate at or beyond the hit window), or a hit that
bumps score, the tier counter and combo, and removes the candidate. -/
theorem judge_cases (lane : Nat) (s : GameState) :
    (judgeOutcome lane s = Outcome.miss ∧ judge lane s = s) ∨
    (∃ n d, findClosest s.notes lane = (some n, d) ∧ d < hit_window ∧ n ∈ s.notes ∧
      ((judgeOutcome lane s = Outcome.perfect ∧ d < perfect_window ∧
        judge lane s =
          { s with
              score := s.score + 300
              perfect_hits := s.perfect_hits + 1
              combo := s.combo + 1
              max_combo := max (s.combo + 1) s.max_combo
              notes := NoteLinkedList.remove s.notes n.nid }) ∨
       (judgeOutcome lane s = Outcome.good ∧ perfect_window ≤ d ∧
        judge lane s =
          { s with
              score := s.score + 100
              good_hits := s.good_hits + 1
              combo := s.combo + 1
              max_combo := max (s.combo + 1) s.max_combo
              notes := NoteLinkedList.remove s.notes n.nid }))) := by
  rcases hf : findClosest s.notes lane with ⟨o, d⟩
  cases o with
  | none =>
    left
    exact ⟨by rw [judgeOutcome, hf], by rw [judge, hf]⟩
  | some n =>
    by_cases hw : d < hit_window
    · right
      obtain ⟨hmem, _, _, _⟩ := findClosest_some s.notes lane n d hf
      refine ⟨n, d, rfl, hw, hmem, ?_⟩
      by_cases hp : d < perfect_window
      · exact Or.inl ⟨by rw [judgeOutcome, hf]; simp [hw, hp], hp,
          by rw [judge, hf]; simp [hw, hp]⟩
      · exact Or.inr ⟨by rw [judgeOutcome, hf]; simp [hw, hp], not_lt.mp hp,
          by rw [judge, hf]; simp [hw, hp]⟩
    · left
      exact ⟨by rw [judgeOutcome, hf]; simp [hw], by rw [judge, hf]; simp [hw]⟩

/-- Fields the press handler never writes. -/
theorem judge_const (lane : Nat) (s : GameState) :
    (judge lane s).health = s.health ∧
    (judge lane s).missed_notes = s.missed_notes ∧
    (judge lane s).total_notes = s.total_notes ∧
    (judge lane s).beat_queue = s.beat_queue ∧
    (judge lane s).nextNid = s.nextNid ∧
    (judge lane s).paused = s.paused ∧
    (judge lane s).running = s.running ∧
    (judge lane s).aborted = s.aborted ∧
    (judge lane s).musicStopped = s.musicStopped := by
  rcases judge_cases lane s with ⟨_, he⟩ | ⟨n, d, _, _, _, ⟨_, _, he⟩ | ⟨_, _, he⟩⟩ <;>
    rw [he] <;> exact ⟨rfl, rfl, rfl, rfl, rfl, rfl, rfl, rfl, rfl⟩

/-! ### Invariant preservation -/

/-- The spawn step preserves the session invariant: the new note is
counted in `total_notes` and carries a fresh identity. -/
theorem spawnStep_inv (t : ℚ) (lane : Nat) (s : GameState) (h : SessionInv s) :
    SessionInv (spawnStep t lane s) := by
  obtain ⟨hcnt, hnd, hbound, hh0, hh1⟩ := h
  rcases spawnStep_cases t lane s with he | ⟨b, rest, hq, hb, he⟩
  · rw [he]; exact ⟨hcnt, hnd, hbound, hh0, hh1⟩
  · rw [he]
    refine ⟨?_, ?_, ?_, hh0, hh1⟩
    · show s.perfect_hits + s.good_hits + s.missed_notes +
        (s.notes ++ [newNote s lane]).length = s.total_notes + 1
      rw [List.length_append, List.length_singleton]
      omega
    · show ((s.notes ++ [newNote s lane]).map NoteNode.nid).Nodup
      rw [List.map_append, List.nodup_append]
      refine ⟨hnd, List.nodup_singleton _, ?_⟩
      intro i hi hmem
      simp only [List.map_cons, List.map_nil, List.mem_singleton] at hmem
      have := hbound i hi
      rw [hmem] at this
      exact absurd this (lt_irrefl _)
    · show ∀ i ∈ (s.notes ++ [newNote s lane]).map NoteNode.nid, i < s.nextNid + 1
      intro i hi
      rw [List.map_append] at hi
      rcases List.mem_append.mp hi with hi | hi
      · exact lt_trans (hbound i hi) (Nat.lt_succ_self _)
      · simp only [List.map_cons, List.map_nil, List.mem_singleton] at hi
        rw [hi]
        exact Nat.lt_succ_self _

/-- The advance-and-sweep pass preserves the session invariant: each
unlinked note moves into `missed_notes`, and health only takes clamped
decrements. -/
theorem updateNotes_inv (s : GameState) (h : SessionInv s) :
    SessionInv (updateNotes s) := by
  obtain ⟨hcnt, hnd, hbound, hh0, hh1⟩ := h
  obtain ⟨h1, h2, h3, _⟩ := updateNotes_spec s hnd
  obtain ⟨_, _, c3, c4, c5, c6, _, _, _, _, _⟩ := updateNotes_const s
  have hsubl : (((s.notes.map mvNote).filter (fun n => !missedP n)).map NoteNode.nid).Sublist
      (s.notes.map NoteNode.nid) := by
    rw [← map_nid_map_mvNote s.notes]
    exact List.Sublist.map NoteNode.nid (List.filter_sublist _)
  refine ⟨?_, ?_, ?_, ?_, ?_⟩
  · rw [c3, c4, c5, h2, h1]
    have hlen := length_filter_not_add_countP (s.notes.map mvNote)
    rw [List.length_map] at hlen
    omega
  · rw [h1]
    exact List.Nodup.sublist hsubl hnd
  · rw [h1, c6]
    intro i hi
    exact hbound i (hsubl.subset hi)
  · rw [h3]
    exact (healthAfterMisses_bounds _ s.health hh0).1
  · rw [h3]
    exact ((healthAfterMisses_bounds _ s.health hh0).2).trans hh1

/-- The press handler preserves the session invariant: a judged note
moves out of the track and into a tier counter. -/
theorem judge_inv (lane : Nat) (s : GameState) (h : SessionInv s) :
    SessionInv (judge lane s) := by
  obtain ⟨hcnt, hnd, hbound, hh0, hh1⟩ := h
  rcases judge_cases lane s with ⟨_, he⟩ | ⟨n, d, hf, hw, hmem, hcase⟩
  · rw [he]; exact ⟨hcnt, hnd, hbound, hh0, hh1⟩
  · have hlen : (NoteLinkedList.remove s.notes n.nid).length + 1 = s.notes.length :=
      NoteLinkedList.length_remove s.notes n.nid ⟨n, hmem, rfl⟩
    have hsub : ((NoteLinkedList.remove s.notes n.nid).map NoteNode.nid).Sublist
        (s.notes.map NoteNode.nid) :=
      List.Sublist.map NoteNode.nid (NoteLinkedList.remove_sublist s.notes n.nid)
    have hnd2 := List.Nodup.sublist hsub hnd
    have hbound2 : ∀ i ∈ (NoteLinkedList.remove s.notes n.nid).map NoteNode.nid,
        i < s.nextNid := fun i hi => hbound i (hsub.subset hi)
    rcases hcase with ⟨_, _, he⟩ | ⟨_, _, he⟩
    · rw [he]
      refine ⟨?_, hnd2, hbound2, hh0, hh1⟩
      show s.perfect_hits + 1 + s.good_hits + s.missed_notes +
        (NoteLinkedList.remove s.notes n.nid).length = s.total_notes
      omega
    · rw [he]
      refine ⟨?_, hnd2, hbound2, hh0, hh1⟩
      show s.perfect_hits + (s.good_hits + 1) + s.missed_notes +
        (NoteLinkedList.remove s.notes n.nid).length = s.total_notes
      omega

/-- One running-branch event preserves the session invariant. -/
theorem handleEvent_inv (s : GameState) (e : Event) (h : SessionInv s) :
    SessionInv (handleEvent s e) := by
  cases e with
  | escape => exact h
  | qkey => exact h
  | press lane =>
    by_cases hp : s.paused
    · simpa [handleEvent, hp] using h
    · simp only [handleEvent, hp, if_false, Bool.false_eq_true]
      exact judge_inv lane s h

/-- The whole running-branch event loop preserves the session invariant. -/
theorem foldl_handleEvent_inv (events : List Event) : ∀ (s : GameState),
    SessionInv s → SessionInv (events.foldl handleEvent s) := by
  induction events with
  | nil => intro s h; exact h
  | cons e evs ih =>
    intro s h
    rw [List.foldl_cons]
    exact ih (handleEvent s e) (handleEvent_inv s e h)

/-- Fields one running-branch event never writes. -/
theorem handleEvent_const (s : GameState) (e : Event) :
    (handleEvent s e).health = s.health ∧
    (handleEvent s e).missed_notes = s.missed_notes ∧
    (handleEvent s e).total_notes = s.total_notes ∧
    (handleEvent s e).beat_queue = s.beat_queue ∧
    (handleEvent s e).nextNid = s.nextNid ∧
    (handleEvent s e).running = s.running ∧
    (handleEvent s e).aborted = s.aborted ∧
    (handleEvent s e).musicStopped = s.musicStopped := by
  cases e with
  | escape => exact ⟨rfl, rfl, rfl, rfl, rfl, rfl, rfl, rfl⟩
  | qkey => exact ⟨rfl, rfl, rfl, rfl, rfl, rfl, rfl, rfl⟩
  | press lane =>
    by_cases hp : s.paused
    · simp [handleEvent, hp]
    · simp only [handleEvent, hp, if_false, Bool.false_eq_true]
      obtain ⟨j1, j2, j3, j4, j5, _, j7, j8, j9⟩ := judge_const lane s
      exact ⟨j1, j2, j3, j4, j5, j7, j8, j9⟩

/-- Fields the whole running-branch event loop never writes. -/
theorem foldl_handleEvent_const (events : List Event) : ∀ (s : GameState),
    (events.foldl handleEvent s).health = s.health ∧
    (events.foldl handleEvent s).missed_notes = s.missed_notes ∧
    (events.foldl handleEvent s).total_notes = s.total_notes ∧
    (events.foldl handleEvent s).beat_queue = s.beat_queue ∧
    (events.foldl handleEvent s).nextNid = s.nextNid ∧
    (events.foldl handleEvent s).running = s.running ∧
    (events.foldl handleEvent s).aborted = s.aborted ∧
    (events.foldl handleEvent s).musicStopped = s.musicStopped := by
  induction events with
  | nil => intro s; exact ⟨rfl, rfl, rfl, rfl, rfl, rfl, rfl, rfl⟩
  | cons e evs ih =>
    intro s
    rw [List.foldl_cons]
    obtain ⟨i1, i2, i3, i4, i5, i6, i7, i8⟩ := ih (handleEvent s e)
    obtain ⟨e1, e2, e3, e4, e5, e6, e7, e8⟩ := handleEvent_const s e
    exact ⟨i1.trans e1, i2.trans e2, i3.trans e3, i4.trans e4, i5.trans e5,
      i6.trans e6, i7.trans e7, i8.trans e8⟩

/-- Fields the paused-branch event loop never writes: only `paused`,
`running`, `aborted` and the audio-stop flag can change while paused. -/
theorem pauseEvents_const (events : List Event) : ∀ (s : GameState),
    (pauseEvents s events).notes = s.notes ∧
    (pauseEvents s events).score = s.score ∧
    (pauseEvents s events).combo = s.combo ∧
    (pauseEvents s events).max_combo = s.max_combo ∧
    (pauseEvents s events).health = s.health ∧
    (pauseEvents s events).total_notes = s.total_notes ∧
    (pauseEvents s events).perfect_hits = s.perfect_hits ∧
    (pauseEvents s events).good_hits = s.good_hits ∧
    (pauseEvents s events).missed_notes = s.missed_notes ∧
    (pauseEvents s events).beat_queue = s.beat_queue ∧
    (pauseEvents s events).nextNid = s.nextNid := by
  induction events with
  | nil => intro s; exact ⟨rfl, rfl, rfl, rfl, rfl, rfl, rfl, rfl, rfl, rfl, rfl⟩
  | cons e evs ih =>
    intro s
    cases e with
    | escape => exact ih { s with paused := false }
    | qkey => exact ⟨rfl, rfl, rfl, rfl, rfl, rfl, rfl, rfl, rfl, rfl, rfl⟩
    | press lane => exact ih s

/-- Without an ESC event the paused-branch event loop cannot resume. -/
theorem pauseEvents_paused (events : List Event) : ∀ (s : GameState),
    Event.escape ∉ events → (pauseEvents s events).paused = s.paused := by
  induction events with
  | nil => intro s _; rfl
  | cons e evs ih =>
    intro s hne
    rw [List.mem_cons] at hne
    push_neg at hne
    cases e with
    | escape => exact absurd rfl hne.1
    | qkey => rfl
    | press lane => exact ih s hne.2

/-- The paused-branch event loop preserves the session invariant. -/
theorem pauseEvents_inv (events : List Event) (s : GameState) (h : SessionInv s) :
    SessionInv (pauseEvents s events) := by
  obtain ⟨hcnt, hnd, hbound, hh0, hh1⟩ := h
  obtain ⟨p1, _, _, _, p5, p6, p7, p8, p9, _, p11⟩ := pauseEvents_const events s
  refine ⟨?_, ?_, ?_, ?_, ?_⟩
  · rw [p6, p7, p8, p9, p1]; exact hcnt
  · rw [p1]; exact hnd
  · rw [p1, p11]; exact hbound
  · rw [p5]; exact hh0
  · rw [p5]; exact hh1

/-- Fields the terminal checks never write. -/
theorem endChecks_const (busy : Bool) (s : GameState) :
    (endChecks busy s).notes = s.notes ∧
    (endChecks busy s).score = s.score ∧
    (endChecks busy s).combo = s.combo ∧
    (endChecks busy s).max_combo = s.max_combo ∧
    (endChecks busy s).health = s.health ∧
    (endChecks busy s).total_notes = s.total_notes ∧
    (endChecks busy s).perfect_hits = s.perfect_hits ∧
    (endChecks busy s).good_hits = s.good_hits ∧
    (endChecks busy s).missed_notes = s.missed_notes ∧
    (endChecks busy s).beat_queue = s.beat_queue ∧
    (endChecks busy s).nextNid = s.nextNid ∧
    (endChecks busy s).paused = s.paused := by
  unfold endChecks
  by_cases hh : s.health ≤ 0 <;> cases busy <;> simp [hh]

/-- The loop exits after the terminal checks exactly when it had already
exited, health is exhausted, or the audio reports not-busy; health
exhaustion forces the audio stop. -/
theorem endChecks_running (busy : Bool) (s : GameState) :
    ((endChecks busy s).running = false ↔
      (s.running = false ∨ s.health ≤ 0 ∨ busy = false)) ∧
    (s.health ≤ 0 → (endChecks busy s).musicStopped = true) := by
  unfold endChecks
  by_cases hh : s.health ≤ 0 <;> cases busy <;> simp [hh]

/-- The terminal checks preserve the session invariant. -/
theorem endChecks_inv (busy : Bool) (s : GameState) (h : SessionInv s) :
    SessionInv (endChecks busy s) := by
  obtain ⟨hcnt, hnd, hbound, hh0, hh1⟩ := h
  obtain ⟨p1, _, _, _, p5, p6, p7, p8, p9, _, p11, _⟩ := endChecks_const busy s
  refine ⟨?_, ?_, ?_, ?_, ?_⟩
  · rw [p6, p7, p8, p9, p1]; exact hcnt
  · rw [p1]; exact hnd
  · rw [p1, p11]; exact hbound
  · rw [p5]; exact hh0
  · rw [p5]; exact hh1

/-- Fields the spawn step never writes. -/
theorem spawnStep_const (t : ℚ) (lane : Nat) (s : GameState) :
    (spawnStep t lane s).health = s.health ∧
    (spawnStep t lane s).missed_notes = s.missed_notes ∧
    (spawnStep t lane s).score = s.score ∧
    (spawnStep t lane s).combo = s.combo ∧
    (spawnStep t lane s).max_combo = s.max_combo ∧
    (spawnStep t lane s).perfect_hits = s.perfect_hits ∧
    (spawnStep t lane s).good_hits = s.good_hits ∧
    (spawnStep t lane s).paused = s.paused ∧
    (spawnStep t lane s).running = s.running ∧
    (spawnStep t lane s).aborted = s.aborted ∧
    (spawnStep t lane s).musicStopped = s.musicStopped := by
  rcases spawnStep_cases t lane s with he | ⟨b, rest, _, _, he⟩ <;> rw [he] <;>
    exact ⟨rfl, rfl, rfl, rfl, rfl, rfl, rfl, rfl, rfl, rfl, rfl⟩

/-- One loop iteration preserves the session invariant. -/
theorem tick_inv (t : ℚ) (lane : Nat) (events : List Event) (busy : Bool)
    (s : GameState) (h : SessionInv s) : SessionInv (tick t lane events busy s) := by
  unfold tick
  split
  · exact h
  · split
    · exact pauseEvents_inv events s h
    · exact endChecks_inv busy _ (foldl_handleEvent_inv events _
        (updateNotes_inv _ (spawnStep_inv t lane s h)))

/-- Every state the session can be in satisfies the invariant. -/
theorem reachable_inv (s : GameState) (h : Reachable s) : SessionInv s := by
  induction h with
  | init B => exact ⟨rfl, List.nodup_nil, by simp [initialState], by norm_num [initialState], by norm_num [initialState]⟩
  | step t lane events busy _ ih => exact tick_inv t lane events busy _ ih

/-- Across one loop iteration, health moves by exactly one clamped
`-10` decrement per newly counted fall-through miss, and by nothing
else. -/
theorem tick_health_delta (t : ℚ) (lane : Nat) (events : List Event) (busy : Bool)
    (s : GameState) (h : SessionInv s) :
    ∃ k : ℕ, (tick t lane events busy s).missed_notes = s.missed_notes + k ∧
      (tick t lane events busy s).health = healthAfterMisses s.health k := by
  unfold tick
  split
  · exact ⟨0, rfl, rfl⟩
  · split
    · obtain ⟨_, _, _, _, p5, _, _, _, p9, _, _⟩ := pauseEvents_const events s
      exact ⟨0, p9, p5⟩
    · obtain ⟨a1, a2, _⟩ := spawnStep_const t lane s
      have hnd : ((spawnStep t lane s).notes.map NoteNode.nid).Nodup :=
        (spawnStep_inv t lane s h).2.1
      obtain ⟨_, u2, u3, _⟩ := updateNotes_spec (spawnStep t lane s) hnd
      obtain ⟨f1, f2, _⟩ :=
        foldl_handleEvent_const events (updateNotes (spawnStep t lane s))
      obtain ⟨_, _, _, _, e5, _, _, _, e9, _, _, _⟩ :=
        endChecks_const busy (List.foldl handleEvent (updateNotes (spawnStep t lane s)) events)
      refine ⟨((spawnStep t lane s).notes.map mvNote).countP missedP, ?_, ?_⟩
      · rw [e9, f2, u2, a2]
      · rw [e5, f1, u3, a1]


/-- With an empty cursor the spawn step is inert. -/
theorem spawnStep_empty (t : ℚ) (lane : Nat) (s : GameState)
    (h : s.beat_queue = []) : spawnStep t lane s = s := by
  unfold spawnStep
  split
  · rfl
  · rename_i b rest hq
    rw [h] at hq
    cases hq

/-- A due front beat is popped: one note appended, both counters up. -/
theorem spawnStep_pop (t : ℚ) (lane : Nat) (s : GameState) (b : ℚ) (rest : List ℚ)
    (hq : s.beat_queue = b :: rest) (hb : b ≤ t) :
    spawnStep t lane s =
      { s with
          notes := s.notes ++ [newNote s lane]
          nextNid := s.nextNid + 1
          total_notes := s.total_notes + 1
          beat_queue := rest } := by
  unfold spawnStep
  split
  · rename_i hq2
    rw [hq] at hq2
    cases hq2
  · rename_i b2 rest2 hq2
    rw [hq] at hq2
    injection hq2 with h1 h2
    subst h1
    subst h2
    rw [if_pos hb, NoteLinkedList.add_eq_append]

/-- Unfolding one scheduler tick. -/
theorem schedulerRun_cons (u : ℚ) (ts : List ℚ) (lane : Nat) (s : GameState) :
    schedulerRun (u :: ts) lane s = schedulerRun ts lane (spawnStep u lane s) := rfl

/-- An exhausted cursor never spawns again. -/
theorem schedulerRun_empty (ts : List ℚ) (lane : Nat) : ∀ (s : GameState),
    s.beat_queue = [] → schedulerRun ts lane s = s := by
  induction ts with
  | nil => intro s _; rfl
  | cons u ts ih =>
    intro s h
    rw [schedulerRun_cons, spawnStep_empty u lane s h]
    exact ih s h

/-- Sweeping enough all-due tick times across the scheduler drains the
whole cursor, one spawn per beat. -/
theorem schedulerRun_drains (lane : Nat) (ts : List ℚ) : ∀ (s : GameState),
    (∀ u ∈ ts, ∀ b ∈ s.beat_queue, b ≤ u) →
    s.beat_queue.length ≤ ts.length →
    (schedulerRun ts lane s).beat_queue = [] ∧
    (schedulerRun ts lane s).total_notes = s.total_notes + s.beat_queue.length ∧
    (schedulerRun ts lane s).notes.length = s.notes.length + s.beat_queue.length := by
  induction ts with
  | nil =>
    intro s _ hlen
    simp only [List.length_nil, Nat.le_zero] at hlen
    have hq : s.beat_queue = [] := List.eq_nil_of_length_eq_zero hlen
    rw [show schedulerRun [] lane s = s from rfl, hq]
    simp
  | cons u ts ih =>
    intro s hall hlen
    rcases hq : s.beat_queue with _ | ⟨b, rest⟩
    · rw [schedulerRun_cons, spawnStep_empty u lane s hq,
        schedulerRun_empty ts lane s hq, hq]
      simp
    · have hb : b ≤ u :=
        hall u (List.mem_cons_self u ts) b (by rw [hq]; exact List.mem_cons_self b rest)
      have hsp := spawnStep_pop u lane s b rest hq hb
      have hq2 : (spawnStep u lane s).beat_queue = rest := by rw [hsp]
      have ht2 : (spawnStep u lane s).total_notes = s.total_notes + 1 := by rw [hsp]
      have hn2 : (spawnStep u lane s).notes.length = s.notes.length + 1 := by
        rw [hsp]
        show (s.notes ++ [newNote s lane]).length = s.notes.length + 1
        rw [List.length_append, List.length_singleton]
      obtain ⟨d1, d2, d3⟩ := ih (spawnStep u lane s)
        (by
          intro u2 hu b2 hb2
          rw [hq2] at hb2
          exact hall u2 (List.mem_cons_of_mem u hu) b2
            (by rw [hq]; exact List.mem_cons_of_mem b hb2))
        (by rw [hq2]; rw [hq] at hlen; simpa using hlen)
      rw [hq2, ht2] at d2
      rw [hq2, hn2] at d3
      rw [schedulerRun_cons]
      refine ⟨d1, ?_, ?_⟩
      · rw [d2, List.length_cons]
        omega
      · rw [d3, List.length_cons]
        omega

/-- Each tick consumes at most one beat — the front, when due — and
appends exactly one note per consumed beat at the tail. -/
theorem spawnStep_atmost_one (t : ℚ) (lane : Nat) (s : GameState) :
    ∃ k ≤ 1, (spawnStep t lane s).beat_queue = s.beat_queue.drop k ∧
      (spawnStep t lane s).total_notes = s.total_notes + k ∧
      ∃ ns : List NoteNode, ns.length = k ∧ (spawnStep t lane s).notes = s.notes ++ ns := by
  rcases spawnStep_cases t lane s with he | ⟨b, rest, hq, hb, he⟩
  · refine ⟨0, Nat.zero_le 1, ?_, ?_, [], rfl, ?_⟩
    · rw [he]
      rfl
    · rw [he]
      rfl
    · rw [he]
      simp
  · refine ⟨1, le_refl 1, ?_, ?_, [newNote s lane], rfl, ?_⟩
    · rw [he, hq]
      rfl
    · rw [he]
    · rw [he]

/-- A tick taken while paused (and not resumed by its events) freezes
the whole play state. -/
theorem paused_tick_frozen (t : ℚ) (lane : Nat) (events : List Event) (busy : Bool)
    (s : GameState) (hp : s.paused = true) (hne : Event.escape ∉ events) :
    (tick t lane events busy s).paused = true ∧
    (tick t lane events busy s).notes = s.notes ∧
    (tick t lane events busy s).score = s.score ∧
    (tick t lane events busy s).combo = s.combo ∧
    (tick t lane events busy s).health = s.health ∧
    (tick t lane events busy s).total_notes = s.total_notes ∧
    (tick t lane events busy s).missed_notes = s.missed_notes := by
  unfold tick
  split
  · exact ⟨hp, rfl, rfl, rfl, rfl, rfl, rfl⟩
  · obtain ⟨p1, p2, p3, _, p5, p6, _, _, p9, _, _⟩ := pauseEvents_const events s
    exact ⟨(pauseEvents_paused events s hne).trans hp, p1, p2, p3, p5, p6, p9⟩

/-- An unpaused running tick exits the loop after its terminal checks
exactly when post-tick health is exhausted or the audio query reported
not-busy; health exhaustion forces the audio stop. -/
theorem tick_running_char (t : ℚ) (lane : Nat) (events : List Event) (busy : Bool)
    (s : GameState) (hr : s.running = true) (hp : s.paused = false) :
    ((tick t lane events busy s).running = false ↔
      ((tick t lane events busy s).health ≤ 0 ∨ busy = false)) ∧
    ((tick t lane events busy s).health ≤ 0 →
      (tick t lane events busy s).musicStopped = true) := by
  have htick : tick t lane events busy s =
      endChecks busy (List.foldl handleEvent (updateNotes (spawnStep t lane s)) events) := by
    unfold tick
    rw [hr, hp]
    simp
  rw [htick]
  have hXr : (List.foldl handleEvent (updateNotes (spawnStep t lane s)) events).running
      = true := by
    obtain ⟨_, _, _, _, _, f6, _, _⟩ :=
      foldl_handleEvent_const events (updateNotes (spawnStep t lane s))
    obtain ⟨_, _, _, _, _, _, _, _, u9, _, _⟩ := updateNotes_const (spawnStep t lane s)
    obtain ⟨_, _, _, _, _, _, _, _, a9, _, _⟩ := spawnStep_const t lane s
    rw [f6, u9, a9, hr]
  obtain ⟨hiff, hstop⟩ :=
    endChecks_running busy (List.foldl handleEvent (updateNotes (spawnStep t lane s)) events)
  obtain ⟨_, _, _, _, e5, _, _, _, _, _, _, _⟩ :=
    endChecks_const busy (List.foldl handleEvent (updateNotes (spawnStep t lane s)) events)
  constructor
  · rw [e5, hiff, hXr]
    simp
  · intro hh
    rw [e5] at hh
    exact hstop hh

/-- Ticks taken while paused (and never resumed) freeze the whole play
state, over any number of consecutive iterations. -/
theorem runTicks_paused_frozen (ins : List TickInput) : ∀ (s : GameState),
    s.paused = true →
    (∀ i ∈ ins, Event.escape ∉ i.events) →
    (runTicks ins s).notes = s.notes ∧
    (runTicks ins s).score = s.score ∧
    (runTicks ins s).combo = s.combo ∧
    (runTicks ins s).health = s.health ∧
    (runTicks ins s).total_notes = s.total_notes ∧
    (runTicks ins s).missed_notes = s.missed_notes ∧
    (runTicks ins s).paused = true := by
  induction ins with
  | nil => intro s hp _; exact ⟨rfl, rfl, rfl, rfl, rfl, rfl, hp⟩
  | cons i ins ih =>
    intro s hp hne
    obtain ⟨q0, q1, q2, q3, q4, q5, q6⟩ :=
      paused_tick_frozen i.t i.lane i.events i.busy s hp (hne i (List.mem_cons_self i ins))
    obtain ⟨r1, r2, r3, r4, r5, r6, r7⟩ := ih (tick i.t i.lane i.events i.busy s) q0
      (fun j hj => hne j (List.mem_cons_of_mem i hj))
    exact ⟨r1.trans q1, r2.trans q2, r3.trans q3, r4.trans q4, r5.trans q5,
      r6.trans q6, r7⟩

/-- Removing the same identity twice equals removing it once, given
distinct identities. -/
theorem remove_remove (l : List NoteNode) (i : Nat) :
    (l.map NoteNode.nid).Nodup →
    NoteLinkedList.remove (NoteLinkedList.remove l i) i = NoteLinkedList.remove l i := by
  induction l with
  | nil => intro _; rfl
  | cons c rest ih =>
    intro hd
    rw [List.map_cons, List.nodup_cons] at hd
    by_cases hc : c.nid = i
    · simp only [NoteLinkedList.remove, if_pos hc]
      apply NoteLinkedList.remove_of_not_mem
      intro n hn hni
      exact hd.1 (by rw [hc, ← hni]; exact List.mem_map_of_mem NoteNode.nid hn)
    · simp only [NoteLinkedList.remove, if_neg hc]
      rw [ih hd.2]

/-! ### Concrete states for counterexamples and witnesses -/

/-- A judged-nothing-yet state with a running combo of 5. -/
def mispressState : GameState := { initialState [] with combo := 5, max_combo := 5 }

/-- A single note sitting 10 pixels above the judgement line in lane 0. -/
def hitNote : NoteNode :=
  { nid := 0, x := 75, y := 640, lane := 0, duration := noteDuration, note_type := "normal" }

/-- A state holding exactly `hitNote`. -/
def hitState : GameState :=
  { initialState [] with notes := [hitNote], nextNid := 1, total_notes := 1 }

/-- An earlier-spawned lane-0 note, 50 pixels past the judgement line
(still inside the sweep tolerance of 60). -/
def earlyNote : NoteNode :=
  { nid := 0, x := 75, y := 700, lane := 0, duration := noteDuration, note_type := "normal" }

/-- A later-spawned lane-0 note, 20 pixels past the judgement line. -/
def lateNote : NoteNode :=
  { nid := 1, x := 75, y := 670, lane := 0, duration := noteDuration, note_type := "normal" }

/-- The post-countdown state, paused by the player. -/
def pausedState : GameState := { initialState [] with paused := true }

/-! ### The claims -/

/-- C1 (counterexample): with detected beats `[0, 0]` — sorted and
non-negative — and simulation time `t = 0`, both beat timestamps are due
(`0 ≤ 0`), yet one tick pops only one of them and emits a single spawn,
leaving a due timestamp unconsumed.  The claim's "when several beat
timestamps are ≤ t in a single tick, all of them are drained in that
tick" is false for the code: line 400 is an `if`, not a `while`. -/
theorem beat_drain_counterexample :
    (tick 0 0 [] true (initialState [0, 0])).beat_queue = [0] ∧
    (tick 0 0 [] true (initialState [0, 0])).total_notes = 1 ∧
    ((0 : ℚ) ≤ 0) :=
  ⟨by decide, by decide, le_refl 0⟩

/-- C1 (amended): each tick pops at most ONE beat — the front of the
queue, exactly when it is ≤ t — emitting one tail-appended spawn per
pop, so the cursor never rewinds and spawns occur in timestamp order;
and a monotone sweep with at least `len(B)` ticks whose times cover all
of `B` still yields exactly `len(B)` spawns. -/
theorem beat_to_spawn_amended (lane : Nat) (ts : List ℚ) (s : GameState)
    (hall : ∀ u ∈ ts, ∀ b ∈ s.beat_queue, b ≤ u)
    (hlen : s.beat_queue.length ≤ ts.length) :
    ((schedulerRun ts lane s).beat_queue = [] ∧
     (schedulerRun ts lane s).total_notes = s.total_notes + s.beat_queue.length ∧
     (schedulerRun ts lane s).notes.length = s.notes.length + s.beat_queue.length) ∧
    (∀ u : ℚ, ∃ k ≤ 1, (spawnStep u lane s).beat_queue = s.beat_queue.drop k ∧
      (spawnStep u lane s).total_notes = s.total_notes + k ∧
      ∃ ns : List NoteNode, ns.length = k ∧ (spawnStep u lane s).notes = s.notes ++ ns) :=
  ⟨schedulerRun_drains lane ts s hall hlen, fun u => spawnStep_atmost_one u lane s⟩

/-- C1 (witness): the amended theorem at beats `[0]`, one tick at `t = 0`. -/
theorem beat_to_spawn_amended_witness :
    (schedulerRun [0] 0 (initialState [0])).beat_queue = [] ∧
    (schedulerRun [0] 0 (initialState [0])).total_notes =
      (initialState [0]).total_notes + (initialState [0]).beat_queue.length :=
  ⟨(beat_to_spawn_amended 0 [0] (initialState [0]) (by decide) (by decide)).1.1,
   (beat_to_spawn_amended 0 [0] (initialState [0]) (by decide) (by decide)).1.2.1⟩

/-- C2 (counterexample): a press on an empty lane is a mis-press (Miss
outcome), yet combo stays 5, not 0 — the `if` at line 506 has no `else`
branch, so a mis-press does not reset combo. -/
theorem mispress_combo_counterexample :
    judgeOutcome 0 mispressState = Outcome.miss ∧
    (judge 0 mispressState).combo = 5 ∧
    (judge 0 mispressState).combo ≠ 0 :=
  ⟨by decide, by decide, by decide⟩

/-- C2 (amended): a mis-press (no candidate within the hit window) is a
complete no-op on the session state — combo AND health are unchanged,
nothing is scored; a successful judge increases combo by exactly 1 and
leaves health unchanged. -/
theorem mispress_amended (lane : Nat) (s : GameState) :
    (judgeOutcome lane s = Outcome.miss → judge lane s = s) ∧
    (judgeOutcome lane s ≠ Outcome.miss →
      (judge lane s).combo = s.combo + 1 ∧ (judge lane s).health = s.health) := by
  rcases judge_cases lane s with ⟨ho, he⟩ | ⟨n, d, hf, hw, hmem, hc⟩
  · exact ⟨fun _ => he, fun hne => absurd ho hne⟩
  · constructor
    · intro ho
      rcases hc with ⟨ho2, _, _⟩ | ⟨ho2, _, _⟩ <;> rw [ho] at ho2 <;> simp at ho2
    · intro _
      rcases hc with ⟨_, _, he⟩ | ⟨_, _, he⟩ <;> rw [he] <;> exact ⟨rfl, rfl⟩

/-- C2 (witness): the amended theorem at an empty lane (no-op) and at a
note 10 pixels from the line (combo exactly +1, health untouched). -/
theorem mispress_amended_witness :
    (judge 0 (initialState []) = initialState []) ∧
    ((judge 0 hitState).combo = hitState.combo + 1 ∧
     (judge 0 hitState).health = hitState.health) :=
  ⟨(mispress_amended 0 (initialState [])).1 (by decide),
   (mispress_amended 0 hitState).2 (by decide)⟩

/-- C3: the code computes simulation time as wall clock minus the fixed
`start_time` set once at countdown end (lines 353, 391), and the pause
branch never adjusts `start_time` (lines 379-389).  So a pause beginning
at simulation time 5 that lasts 2 wall-clock seconds resumes at
simulation time 7, not 5: the elapsed paused duration IS counted into
`t`, while the paused-and-unpaused audio stays at 5 — the code
contradicts the claim (and desynchronizes notes from audio, against the
program's own stated purpose of spawning notes exactly on beats). -/
theorem pause_time_leak :
    simTime 5 { start_time := 0, paused := false } = 5 ∧
    simTime 7 (resumeFromPause (pauseGame { start_time := 0, paused := false })) = 7 ∧
    (7 : ℚ) ≠ 5 := by
  refine ⟨?_, ?_, by norm_num⟩ <;> simp [simTime, resumeFromPause, pauseGame]

/-- C4 (counterexample): with one pending beat at 5 s, simulation time
0, full health, and the audio query reporting not-busy, the tick ends
the session even though a beat is still pending: audio finishing while
beats are pending DOES end the session in the code (line 534 checks
only `get_busy`). -/
theorem session_end_counterexample :
    (tick 0 0 [] false (initialState [5])).running = false ∧
    (tick 0 0 [] false (initialState [5])).beat_queue = [5] ∧
    (0 : ℤ) < (tick 0 0 [] false (initialState [5])).health :=
  ⟨by decide, by decide, by decide⟩

/-- C4 (amended): an unpaused running tick ends the session exactly when
post-tick health is ≤ 0 or the audio reports not-busy — regardless of
pending beats or notes; health exhaustion forces the audio stop. -/
theorem session_end_amended (t : ℚ) (lane : Nat) (events : List Event) (busy : Bool)
    (s : GameState) (hr : s.running = true) (hp : s.paused = false) :
    ((tick t lane events busy s).running = false ↔
      ((tick t lane events busy s).health ≤ 0 ∨ busy = false)) ∧
    ((tick t lane events busy s).health ≤ 0 →
      (tick t lane events busy s).musicStopped = true) :=
  tick_running_char t lane events busy s hr hp

/-- C4 (witness): the amended theorem at the fresh state with the audio
reporting not-busy. -/
theorem session_end_amended_witness :
    ((tick 0 0 [] false (initialState [])).running = false ↔
      ((tick 0 0 [] false (initialState [])).health ≤ 0 ∨ false = false)) ∧
    ((tick 0 0 [] false (initialState [])).health ≤ 0 →
      (tick 0 0 [] false (initialState [])).musicStopped = true) :=
  session_end_amended 0 0 [] false (initialState []) rfl rfl

/-- C5 (counterexample): two lane-0 notes, the earlier-spawned (list
head, identity 0) at `y = 700` — 50 past the judgement line 650, still
inside the sweep tolerance 710 — and the later-spawned at `y = 670`,
distance 20.  The lookup returns the LATER note: it is not always the
earliest-spawned remaining note of the lane. -/
theorem nearest_fifo_counterexample :
    (findClosest [earlyNote, lateNote] 0).1 = some lateNote ∧
    lateNote.nid ≠ earlyNote.nid ∧
    ¬(judgement_line + hit_window < earlyNote.y) ∧
    ¬(judgement_line + hit_window < lateNote.y) :=
  ⟨by decide, by decide, by decide, by decide⟩

/-- C5 (amended): whenever the lane lookup yields a candidate, it is a
note of the searched lane at minimal distance to the judgement line
(within the 999 initialization bound), and the earliest-spawned wins any
distance tie: every earlier lane note is strictly farther, every later
one at least as far.  (It need not be the earliest-spawned lane note:
see the counterexample.) -/
theorem nearest_min_dist (l : List NoteNode) (lane : Nat) (n : NoteNode) (d : ℤ)
    (h : findClosest l lane = (some n, d)) :
    n.lane = lane ∧ d = |n.y - judgement_line| ∧ d < 999 ∧
    ∃ l₁ l₂, l = l₁ ++ n :: l₂ ∧
      (∀ m ∈ l₁, m.lane = lane → d < |m.y - judgement_line|) ∧
      (∀ m ∈ l₂, m.lane = lane → d ≤ |m.y - judgement_line|) := by
  rw [findClosest] at h
  rcases searchFold_char lane l none 999 with ⟨hf, _⟩ |
    ⟨n2, l₁, l₂, hl, hnl, hf, hlt, h₁, h₂⟩
  · have := h.symm.trans hf
    simp at this
  · have heq := h.symm.trans hf
    rw [Prod.mk.injEq, Option.some.injEq] at heq
    obtain ⟨rfl, rfl⟩ := heq
    exact ⟨hnl, rfl, hlt, l₁, l₂, hl, h₁, h₂⟩

/-- C5 (witness): the amended theorem at the singleton list holding
`earlyNote`, found at distance 50. -/
theorem nearest_min_dist_witness :
    earlyNote.lane = 0 ∧ (50 : ℤ) = |earlyNote.y - judgement_line| ∧ (50 : ℤ) < 999 ∧
    ∃ l₁ l₂, [earlyNote] = l₁ ++ earlyNote :: l₂ ∧
      (∀ m ∈ l₁, m.lane = 0 → (50 : ℤ) < |m.y - judgement_line|) ∧
      (∀ m ∈ l₂, m.lane = 0 → (50 : ℤ) ≤ |m.y - judgement_line|) :=
  nearest_min_dist [earlyNote] 0 earlyNote 50 (by decide)

/-- C6: with a candidate note found in the pressed lane at distance `d`:
`d < 20` yields Perfect, adds exactly 300 to the score, counts one
perfect hit, and removes the judged note; `20 ≤ d < 60` yields Good,
adds exactly 100, counts one good hit, and removes the judged note;
`d ≥ 60` is the (mis-press) Miss, which scores nothing. -/
theorem judgement_classification (lane : Nat) (s : GameState) (n : NoteNode) (d : ℤ)
    (h : findClosest s.notes lane = (some n, d)) :
    (d < perfect_window →
      judgeOutcome lane s = Outcome.perfect ∧
      (judge lane s).score = s.score + 300 ∧
      (judge lane s).perfect_hits = s.perfect_hits + 1 ∧
      (judge lane s).notes = NoteLinkedList.remove s.notes n.nid) ∧
    (perfect_window ≤ d → d < hit_window →
      judgeOutcome lane s = Outcome.good ∧
      (judge lane s).score = s.score + 100 ∧
      (judge lane s).good_hits = s.good_hits + 1 ∧
      (judge lane s).notes = NoteLinkedList.remove s.notes n.nid) ∧
    (hit_window ≤ d →
      judgeOutcome lane s = Outcome.miss ∧
      (judge lane s).score = s.score ∧ judge lane s = s) := by
  refine ⟨?_, ?_, ?_⟩
  · intro hp
    have hw : d < hit_window := by
      have h20 : perfect_window = (20 : ℤ) := rfl
      have h60 : hit_window = (60 : ℤ) := rfl
      omega
    have ho : judgeOutcome lane s = Outcome.perfect := by
      rw [judgeOutcome, h]
      simp [hw, hp]
    have he : judge lane s =
        { s with
            score := s.score + 300
            perfect_hits := s.perfect_hits + 1
            combo := s.combo + 1
            max_combo := max (s.combo + 1) s.max_combo
            notes := NoteLinkedList.remove s.notes n.nid } := by
      rw [judge, h]
      simp [hw, hp]
    exact ⟨ho, by rw [he], by rw [he], by rw [he]⟩
  · intro hp hw
    have ho : judgeOutcome lane s = Outcome.good := by
      rw [judgeOutcome, h]
      simp [hw, not_lt.mpr hp]
    have he : judge lane s =
        { s with
            score := s.score + 100
            good_hits := s.good_hits + 1
            combo := s.combo + 1
            max_combo := max (s.combo + 1) s.max_combo
            notes := NoteLinkedList.remove s.notes n.nid } := by
      rw [judge, h]
      simp [hw, not_lt.mpr hp]
    exact ⟨ho, by rw [he], by rw [he], by rw [he]⟩
  · intro hw
    have ho : judgeOutcome lane s = Outcome.miss := by
      rw [judgeOutcome, h]
      simp [not_lt.mpr hw]
    have he : judge lane s = s := by
      rw [judge, h]
      simp [not_lt.mpr hw]
    exact ⟨ho, by rw [he], he⟩

/-- C6 (witness): the classification at `hitState`, whose lane-0 note
sits at distance 10 < 20 from the judgement line: Perfect, +300. -/
theorem judgement_classification_witness :
    judgeOutcome 0 hitState = Outcome.perfect ∧
    (judge 0 hitState).score = hitState.score + 300 ∧
    (judge 0 hitState).perfect_hits = hitState.perfect_hits + 1 ∧
    (judge 0 hitState).notes = NoteLinkedList.remove hitState.notes hitNote.nid :=
  (judgement_classification 0 hitState hitNote 10 (by decide)).1 (by decide)

/-- C7: in every reachable session state health lies in [0, 100]; one
more tick never raises it; and its change across the tick is exactly one
clamped `max(0, h - 10)` decrement per newly counted fall-through miss —
in particular, a tick with no new fall-through misses leaves health
unchanged. -/
theorem health_clamped (s : GameState) (t : ℚ) (lane : Nat) (events : List Event)
    (busy : Bool) (h : Reachable s) :
    0 ≤ s.health ∧ s.health ≤ 100 ∧
    (tick t lane events busy s).health ≤ s.health ∧
    (tick t lane events busy s).health =
      healthAfterMisses s.health
        ((tick t lane events busy s).missed_notes - s.missed_notes) := by
  obtain ⟨_, _, _, hh0, hh1⟩ := reachable_inv s h
  obtain ⟨k, hk1, hk2⟩ := tick_health_delta t lane events busy s (reachable_inv s h)
  have hdelta : (tick t lane events busy s).missed_notes - s.missed_notes = k := by
    omega
  refine ⟨hh0, hh1, ?_, ?_⟩
  · rw [hk2]
    exact (healthAfterMisses_bounds k s.health hh0).2
  · rw [hdelta, hk2]

/-- C7 (witness): the health invariant at the fresh state with one
no-op tick. -/
theorem health_clamped_witness :
    0 ≤ (initialState []).health ∧ (initialState []).health ≤ 100 ∧
    (tick 0 0 [] true (initialState [])).health ≤ (initialState []).health ∧
    (tick 0 0 [] true (initialState [])).health =
      healthAfterMisses (initialState []).health
        ((tick 0 0 [] true (initialState [])).missed_notes -
          (initialState []).missed_notes) :=
  health_clamped (initialState []) 0 0 [] true (Reachable.init [])

/-- C8: over any number of consecutive ticks taken while the session is
paused (no resume among their events), no note changes position, none
spawns, none is swept, and score, combo, and health are unchanged. -/
theorem pause_neutrality (s : GameState) (ins : List TickInput)
    (hp : s.paused = true)
    (hne : ∀ i ∈ ins, Event.escape ∉ i.events) :
    (runTicks ins s).notes = s.notes ∧
    (runTicks ins s).score = s.score ∧
    (runTicks ins s).combo = s.combo ∧
    (runTicks ins s).health = s.health ∧
    (runTicks ins s).total_notes = s.total_notes ∧
    (runTicks ins s).missed_notes = s.missed_notes ∧
    (runTicks ins s).paused = true :=
  runTicks_paused_frozen ins s hp hne

/-- C8 (witness): one paused tick with no events at the paused fresh
state. -/
theorem pause_neutrality_witness :
    (runTicks [{ t := 0, lane := 0, events := [], busy := true }] pausedState).notes =
      pausedState.notes ∧
    (runTicks [{ t := 0, lane := 0, events := [], busy := true }] pausedState).score =
      pausedState.score ∧
    (runTicks [{ t := 0, lane := 0, events := [], busy := true }] pausedState).combo =
      pausedState.combo ∧
    (runTicks [{ t := 0, lane := 0, events := [], busy := true }] pausedState).health =
      pausedState.health ∧
    (runTicks [{ t := 0, lane := 0, events := [], busy := true }] pausedState).total_notes =
      pausedState.total_notes ∧
    (runTicks [{ t := 0, lane := 0, events := [], busy := true }] pausedState).missed_notes =
      pausedState.missed_notes ∧
    (runTicks [{ t := 0, lane := 0, events := [], busy := true }] pausedState).paused = true :=
  pause_neutrality pausedState [{ t := 0, lane := 0, events := [], busy := true }] rfl
    (by
      intro i hi
      rw [List.mem_singleton] at hi
      rw [hi]
      simp)

/-- C9: with distinct node identities — which Python object identity
guarantees by construction, and the session invariant maintains —
removing the same identity twice yields the same track state as removing
it once, and removing an identity that is not in the list is a silent
no-op. -/
theorem remove_idempotent (l : List NoteNode) (i : Nat)
    (hd : (l.map NoteNode.nid).Nodup) :
    NoteLinkedList.remove (NoteLinkedList.remove l i) i = NoteLinkedList.remove l i ∧
    ((∀ n ∈ l, n.nid ≠ i) → NoteLinkedList.remove l i = l) :=
  ⟨remove_remove l i hd, NoteLinkedList.remove_of_not_mem l i⟩

/-- C9 (witness): double removal of identity 0 from a two-note list, and
removal of the absent identity 5. -/
theorem remove_idempotent_witness :
    (NoteLinkedList.remove (NoteLinkedList.remove [earlyNote, lateNote] 0) 0 =
      NoteLinkedList.remove [earlyNote, lateNote] 0) ∧
    NoteLinkedList.remove [earlyNote, lateNote] 5 = [earlyNote, lateNote] :=
  ⟨(remove_idempotent [earlyNote, lateNote] 0 (by decide)).1,
   (remove_idempotent [earlyNote, lateNote] 5 (by decide)).2 (by decide)⟩

/-- C10: in every reachable session state the judged and swept counters
never exceed the spawned total — every judged or fall-through-missed
note was previously spawned and is counted at most once — and therefore
the accuracy value (0 when nothing spawned) always lies between 0 and
100. -/
theorem counters_and_accuracy (s : GameState) (h : Reachable s) :
    s.perfect_hits + s.good_hits + s.missed_notes ≤ s.total_notes ∧
    0 ≤ accuracy s ∧ accuracy s ≤ 100 := by
  obtain ⟨hcnt, _, _, _, _⟩ := reachable_inv s h
  have hle : s.perfect_hits + s.good_hits + s.missed_notes ≤ s.total_notes := by omega
  refine ⟨hle, ?_, ?_⟩
  · unfold accuracy
    split
    · positivity
    · norm_num
  · unfold accuracy
    split
    · rename_i hpos
      have h1 : ((s.perfect_hits : ℚ) + s.good_hits) / s.total_notes ≤ 1 := by
        rw [div_le_one (by exact_mod_cast hpos)]
        have h2 : s.perfect_hits + s.good_hits ≤ s.total_notes := by omega
        exact_mod_cast h2
      calc ((s.perfect_hits : ℚ) + s.good_hits) / s.total_notes * 100
          ≤ 1 * 100 := mul_le_mul_of_nonneg_right h1 (by norm_num)
        _ = 100 := by norm_num
    · norm_num

/-- C10 (witness): the counter bound and accuracy bounds at the fresh
state (`accuracy = 0` with nothing spawned). -/
theorem counters_and_accuracy_witness :
    (initialState []).perfect_hits + (initialState []).good_hits +
      (initialState []).missed_notes ≤ (initialState []).total_notes ∧
    0 ≤ accuracy (initialState []) ∧ accuracy (initialState []) ≤ 100 :=
  counters_and_accuracy (initialState []) (Reachable.init [])
